import Mathlib

/-!
# Verification of the opensubtitlescli pipeline (`src/main.rs`)

A shallow embedding of the fingerprinting, URL-building, result-parsing,
archive-member-listing, extension-extraction and candidate-selection logic of
`src/main.rs`, together with theorems settling the specification's claims.

Modelling conventions:
* machine integers are `Nat`/`Int` with explicit `% 2 ^ 64` (for `u64`
  `wrapping_add`) and `% 256` (for `u8`) where overflow matters;
* `f32` ratings are modelled as `Rat`; the ratings exercised here
  (plain short decimal literals such as `9.5`) are exactly representable in
  `f32` and their order coincides with the rational order, and `OrderedFloat`
  on such values is the numeric order;
* the native byte order of `u64::from_ne_bytes` is fixed to little endian
  (the x86-64 convention);
* string primitives (`starts_with`, `ends_with`, `trim`, `to_lowercase`,
  `split`) are modelled character-by-character on `String.data`;
  `to_lowercase` is modelled on its ASCII behaviour;
* fallible Rust code (`eyre::Result`) becomes `Except String` carrying the
  source's error message strings;
* `itertools::sorted_unstable_by_key` is an unstable sort: its documented
  contract is "a permutation of the input whose keys are ascending; equal
  keys may be reordered".  It is therefore embedded as a *relation* between
  input and permitted outputs rather than as a function.
-/

set_option maxRecDepth 16000

deriving instance DecidableEq for Except

namespace OpensubtitlesCli

/-! ## Character-level string primitives (models of Rust `str` methods) -/

/-- Models Rust `str::starts_with(pat)` on the char lists of the strings:
`charsStartWith s p` is true when `p` is an initial segment of `s`. -/
def charsStartWith : List Char → List Char → Bool
  | _, [] => true
  | [], _ :: _ => false
  | c :: cs, p :: ps => c == p && charsStartWith cs ps

/-- Models Rust `str::ends_with(pat)`: `p` is a final segment of `l`. -/
def charsEndWith (l p : List Char) : Bool :=
  charsStartWith l.reverse p.reverse

/-- Models Rust `str::trim`: strip whitespace from both ends. -/
def trimChars (l : List Char) : List Char :=
  ((l.dropWhile Char.isWhitespace).reverse.dropWhile Char.isWhitespace).reverse

/-- Models Rust `str::to_lowercase` (ASCII range, which covers every name and
label this program manipulates). -/
def lowerChars (l : List Char) : List Char :=
  l.map Char.toLower

/-- Models Rust `str::split(sep)` for a one-character separator: the list of
(possibly empty) chunks between occurrences of `sep`.  Like the Rust
iterator, the result is never empty (splitting the empty string gives one
empty chunk). -/
def splitOnChar (sep : Char) : List Char → List (List Char)
  | [] => [[]]
  | c :: rest =>
    match splitOnChar sep rest with
    | [] => [[c]]
    | h :: t => if c == sep then [] :: h :: t else (c :: h) :: t

/-- Numeric value of a nonempty all-digit char list, used to model the digit
portion of Rust `str::parse`. -/
def digitsToNat (l : List Char) : Option Nat :=
  if l.isEmpty then none
  else if l.all Char.isDigit then
    some (l.foldl (fun acc c => acc * 10 + (c.toNat - 48)) 0)
  else none

/-- Models Rust `str::parse::<f32>` restricted to the plain decimal literals
(`"9.5"`, `"7.0"`, `"-3"`, ...) this site emits: optional leading minus,
digits, optional fractional digits.  Such values are exact in `f32`, so `Rat`
represents them faithfully.  (The exotic `f32` forms --- exponents, `inf`,
`NaN` --- are outside the model.) -/
def parseFloat (s : String) : Except String Rat :=
  let signed : Int × List Char :=
    match s.data with
    | '-' :: rest => (-1, rest)
    | l => (1, l)
  match splitOnChar '.' signed.2 with
  | [ip] =>
    match digitsToNat ip with
    | some n => .ok (Rat.divInt (signed.1 * n) 1)
    | none => .error "not a float"
  | [ip, fp] =>
    match digitsToNat ip, digitsToNat fp with
    | some n, some m =>
      .ok (Rat.divInt (signed.1 * ((n : Int) * 10 ^ fp.length + m)) (10 ^ fp.length))
    | _, _ => .error "not a float"
  | _ => .error "not a float"

/-- Models Rust `str::parse::<i32>`: optional leading minus then digits.
(The `i32` overflow bound is not exercised by any claim and is not
modelled.) -/
def parseInt (s : String) : Except String Int :=
  match s.data with
  | '-' :: rest =>
    match digitsToNat rest with
    | some n => .ok (-(n : Int))
    | none => .error "not an int"
  | l =>
    match digitsToNat l with
    | some n => .ok ((n : Int))
    | none => .error "not an int"

/-- Models Rust `str::trim` at the `String` level. -/
def trimString (s : String) : String :=
  String.mk (trimChars s.data)

/-! ## Fingerprinter (`create_hash`, `hash_for_file`) -/

/-- `HASH_BLK_SIZE` from the source: the 64 KiB window size. -/
def HASH_BLK_SIZE : Nat := 65536

/-- A readable file: its size in bytes (`fs::metadata(..).len()`, a `u64`)
and its contents, `byte i` being the byte at offset `i`.  Byte values are
reduced `% 256` where they are consumed, mirroring `u8`.  Reads are total:
`hash_for_file` only ever reads inside `[0, size)` after its size check, so
short reads cannot occur on an intact file. -/
structure FsFile where
  size : Nat
  byte : Nat → Nat

/-- Models `u64::from_ne_bytes` applied to the 8 bytes at offset `off`
(native order fixed to little endian): byte `off + k` carries weight
`256 ^ k`. -/
def word8 (f : FsFile) (off : Nat) : Nat :=
  ((List.range 8).map fun k => f.byte (off + k) % 256 * 256 ^ k).sum

/-- One read loop of `create_hash`: starting from accumulator `h0`, fold the
8192 (`HASH_BLK_SIZE / 8`) words of the 64 KiB window at `start` with
`u64::wrapping_add`, i.e. addition `% 2 ^ 64`. -/
def hashWindow (f : FsFile) (start h0 : Nat) : Nat :=
  (List.range (HASH_BLK_SIZE / 8)).foldl
    (fun h j => (h + word8 f (start + 8 * j)) % 2 ^ 64) h0

/-- The plain (non-wrapping) sum of the 8192 words of the 64 KiB window at
offset `start`. -/
def windowSum (f : FsFile) (start : Nat) : Nat :=
  ((List.range (HASH_BLK_SIZE / 8)).map fun j => word8 f (start + 8 * j)).sum

/-- Models `format!("{:01$x}", v, 16)` for `v < 2 ^ 64`: exactly 16 hex
digits, lowercase, zero-padded on the left, most significant digit first. -/
def toHex16 (n : Nat) : String :=
  String.mk ((List.range 16).map fun i => Nat.digitChar (n / 16 ^ (15 - i) % 16))

/-- A lowercase hexadecimal digit: `0`-`9` or `a`-`f`. -/
def isLowerHexDigit (c : Char) : Bool :=
  c.isDigit || ('a' ≤ c && c ≤ 'f')

/-- Models `create_hash(file, fsize)`: seed the `u64` accumulator with the
file size, fold the first 64 KiB window starting at offset 0, seek to
`fsize - HASH_BLK_SIZE`, fold the final 64 KiB window, render as hex. -/
def create_hash (f : FsFile) : String :=
  toHex16 (hashWindow f (f.size - HASH_BLK_SIZE) (hashWindow f 0 (f.size % 2 ^ 64)))

/-- Models `hash_for_file`: read the size; `bail!("file too small")` when
`size <= HASH_BLK_SIZE` (before the file is even opened); otherwise hash. -/
def hash_for_file (f : FsFile) : Except String String :=
  if f.size ≤ HASH_BLK_SIZE then .error "file too small"
  else .ok (create_hash f)

/-! ## Query builder (`BASE_URL`, `to_url_in_base`) -/

/-- `BASE_URL` from the source. -/
def BASE_URL : String := "https://www.opensubtitles.org"

/-- Models `reqwest::Url::parse` (the `url` crate) restricted to the inputs
this program feeds it: absolute `http(s)` URLs already in serialized form,
on which parsing succeeds and round-trips to the same string.  Anything
without such a scheme head is rejected, mirroring the
`wrap_err_with(|| format!(...))` failure. -/
def parseUrl (s : String) : Except String String :=
  if charsStartWith s.data "https://".data || charsStartWith s.data "http://".data then .ok s
  else .error ("invalid url: " ++ s)

/-- Models `to_url_in_base`: parse the href as-is when it already starts
with `BASE_URL`, otherwise prepend `BASE_URL` first. -/
def to_url_in_base (u : String) : Except String String :=
  parseUrl (if charsStartWith u.data BASE_URL.data then u else BASE_URL ++ u)

/-! ## Result parser (`crawler::SubsEntry`, `crawler::top_rated_subs`) -/

/-- One `td` cell of a results row.  `text` is the cell's text content
joined with single spaces (`v.text().join(" ")` in the source); `links`
lists the cell's `a` descendants in document order, each with its optional
`href` attribute. -/
structure Cell where
  text : String
  links : List (Option String)
deriving DecidableEq

/-- One `tr` element, as the ordered list of its `td` cells. -/
structure Row where
  cells : List Cell
deriving DecidableEq

/-- A fetched search page after `Html::parse_document`: `searchResults` is
the ordered list of `tr` elements inside `table#search_results` when that
table is present (the first `tr` is the header row the source skips), and
`none` when the selector matches nothing. -/
structure Page where
  searchResults : Option (List Row)
deriving DecidableEq

/-- One parsed results row, mirroring `crawler::SubsEntry` field by field
(`Url` is kept in its serialized `String` form, `f32` as `Rat`, `i32` as
`Int`). -/
structure SubsEntry where
  name : String
  flag : String
  cd : String
  sent : String
  download_url : String
  rating : Rat
  edits : Int
  imdb_rating : Rat
  uploaded_by : String
deriving DecidableEq

/-- The `next()` closure of `SubsEntry::from_table_row_element`: the
`idx`-th `td` cell of the row, or the `eyre!("fetching entry number
[{idx}]")` error when the row has run out of cells. -/
def cellAt (cells : List Cell) (idx : Nat) : Except String Cell :=
  match cells.get? idx with
  | some c => .ok c
  | none => .error ("fetching entry number [" ++ toString idx ++ "]")

/-- Models `SubsEntry::from_table_row_element`: extract the nine cells in
order --- name, flag, cd, sent, download link (first `a` child's `href`
resolved through `to_url_in_base`), rating (trimmed, parsed as a float),
edits (trimmed, parsed as an int), imdb rating (trimmed, parsed as a
float), uploader --- failing on the first extraction or parse that fails. -/
def SubsEntry.from_table_row_element (r : Row) : Except String SubsEntry := do
  let c0 ← cellAt r.cells 0
  let c1 ← cellAt r.cells 1
  let c2 ← cellAt r.cells 2
  let c3 ← cellAt r.cells 3
  let c4 ← cellAt r.cells 4
  let href ←
    match c4.links.head? with
    | none => Except.error "no a element"
    | some none => Except.error "no href element"
    | some (some h) => to_url_in_base h
  let c5 ← cellAt r.cells 5
  let rating ← parseFloat (trimString c5.text)
  let c6 ← cellAt r.cells 6
  let edits ← parseInt (trimString c6.text)
  let c7 ← cellAt r.cells 7
  let imdb ← parseFloat (trimString c7.text)
  let c8 ← cellAt r.cells 8
  Except.ok
    { name := c0.text, flag := c1.text, cd := c2.text, sent := c3.text,
      download_url := href, rating := rating, edits := edits,
      imdb_rating := imdb, uploaded_by := c8.text }

/-- The `filter_map` stage of `top_rated_subs`: rows whose parse succeeds,
in document order; rows whose parse fails are dropped. -/
def parsedEntries (rows : List Row) : List SubsEntry :=
  rows.filterMap fun r => (SubsEntry.from_table_row_element r).toOption

/-- The `warn!` log of the same stage: one warning message per row whose
parse fails, in document order (`tap_err(|message| warn!(...))`). -/
def parseWarnings (rows : List Row) : List String :=
  rows.filterMap fun r =>
    match SubsEntry.from_table_row_element r with
    | .ok _ => none
    | .error e => some e

/-- The deterministic part of `crawler::top_rated_subs`: fail with
`eyre!("no search result table")` when `table#search_results` is absent;
otherwise parse every `tr` after the header row, dropping failures. -/
def top_rated_entries (page : Page) : Except String (List SubsEntry) :=
  match page.searchResults with
  | none => .error "no search result table"
  | some rows => .ok (parsedEntries (rows.drop 1))

/-- Full contract of `crawler::top_rated_subs page top_n`: `out` is a
possible return value iff the parse stage succeeds with some list `cs` and
`out` is the first `topN` elements of some permutation `s` of `cs` whose
keys `OrderedFloat(-rating)` are ascending.  The permutation is
existentially quantified because `sorted_unstable_by_key` is an *unstable*
sort: its contract permits any relative order of equal keys. -/
def TopRatedSubs (page : Page) (topN : Nat) (out : List SubsEntry) : Prop :=
  ∃ cs s, top_rated_entries page = .ok cs ∧ cs.Perm s ∧
    ((s.map fun e => -e.rating).Sorted (· ≤ ·)) ∧ out = s.take topN

/-! ## Archive member listing and extension (from `main`) -/

/-- The filter stage of the member listing in `main`:
`file_names().filter(|e| !e.to_lowercase().trim().ends_with(".nfo"))`,
keeping archive order. -/
def zip_member_names (names : List String) : List String :=
  names.filter fun e => !charsEndWith (trimChars (lowerChars e.data)) ".nfo".data

/-- The member sort key in `main`: `v.to_lowercase().ends_with(".srt")`. -/
def srtKey (v : String) : Bool :=
  charsEndWith (lowerChars v.data) ".srt".data

/-- Full contract of the member listing in `main`: after the `.nfo` filter,
`sorted_unstable_by_key(srtKey)` (`false < true`, unstable, so a
permutation with ascending keys) followed by `.rev()`.  `out` is a possible
listing iff it is the reverse of such a permutation. -/
def ListedMembers (names out : List String) : Prop :=
  ∃ s, (zip_member_names names).Perm s ∧ ((s.map srtKey).Sorted (· ≤ ·)) ∧ out = s.reverse

/-- Models the output-extension extraction in `main`:
`file.split('.').next_back().ok_or_else(|| eyre!("this file has no extension"))`. -/
def extension_of (file : String) : Except String String :=
  match (splitOnChar '.' file.data).getLast? with
  | some ext => .ok (String.mk ext)
  | none => .error "this file has no extension"

/-! ## Candidate selection (`prompt_unless_single`) -/

/-- Models `prompt_unless_single`, with the interactive collaborator
(`inquire::Select::new(prompt, values).prompt()`) injected as `collab`: a
one-element slice is returned directly, any other shape (including the
empty list) is handed to the collaborator. -/
def prompt_unless_single {T : Type} (collab : String → List T → Except String T)
    (p : String) (values : List T) : Except String T :=
  match values with
  | [single] => .ok single
  | vs => collab p vs

/-! ## Concrete fixtures used by witnesses and counterexamples -/

/-- A file of size `n` whose bytes are all zero. -/
def zeroFile (n : Nat) : FsFile :=
  { size := n, byte := fun _ => 0 }

/-- A cell holding only text. -/
def textCell (t : String) : Cell :=
  { text := t, links := [] }

/-- A cell holding one `a` element with the given `href`. -/
def linkCell (href : String) : Cell :=
  { text := "", links := [some href] }

/-- A well-formed results row with the given name and rating label. -/
def sampleRow (nm rating : String) : Row :=
  { cells := [textCell nm, textCell "pl", textCell "1CD", textCell "2x",
              linkCell "/en/subtitleserve/sub/1", textCell rating, textCell "0",
              textCell "7.1", textCell "up"] }

/-- The header `tr` of the fixture page (skipped by the parser). -/
def headerRow : Row :=
  { cells := [] }

/-- The entry `sampleRow nm r` parses to. -/
def entryOf (nm : String) (r : Rat) : SubsEntry :=
  { name := nm, flag := "pl", cd := "1CD", sent := "2x",
    download_url := "https://www.opensubtitles.org/en/subtitleserve/sub/1",
    rating := r, edits := 0, imdb_rating := Rat.divInt 71 10, uploaded_by := "up" }

/-- Fixture page whose data rows carry ratings `[9.5, 7.0, 9.5]`. -/
def examplePage : Page :=
  { searchResults :=
      some [headerRow, sampleRow "A" "9.5", sampleRow "B" "7.0", sampleRow "C" "9.5"] }

/-- First 9.5-rated row of `examplePage`. -/
def entryA : SubsEntry := entryOf "A" (Rat.divInt 19 2)

/-- The 7.0-rated row of `examplePage`. -/
def entryB : SubsEntry := entryOf "B" (Rat.divInt 7 1)

/-- Second 9.5-rated row of `examplePage`. -/
def entryC : SubsEntry := entryOf "C" (Rat.divInt 19 2)

/-- The archive-member fixture of the specification. -/
def exampleMembers : List String :=
  ["movie.srt", "movie.en.srt", "info.nfo", "readme.txt"]

/-! ## Helper lemmas -/

/-- Folding wrapping additions equals one modular addition of the plain sum. -/
theorem foldl_mod_add (g : Nat → Nat) (l : List Nat) :
    ∀ h0 : Nat, h0 < 2 ^ 64 →
      l.foldl (fun h j => (h + g j) % 2 ^ 64) h0 = (h0 + (l.map g).sum) % 2 ^ 64 := by
  induction l with
  | nil =>
    intro h0 hh
    rw [List.foldl_nil, List.map_nil, List.sum_nil, Nat.add_zero, Nat.mod_eq_of_lt hh]
  | cons a l ih =>
    intro h0 hh
    rw [List.foldl_cons, ih _ (Nat.mod_lt _ (Nat.two_pow_pos 64)), Nat.mod_add_mod,
      List.map_cons, List.sum_cons, Nat.add_assoc]

/-- A window fold is the modular sum of the window's words. -/
theorem hashWindow_eq (f : FsFile) (start h0 : Nat) (hh : h0 < 2 ^ 64) :
    hashWindow f start h0 = (h0 + windowSum f start) % 2 ^ 64 :=
  foldl_mod_add _ _ h0 hh

/-- Closed form of `create_hash`: size seed plus head-window words plus
tail-window words, reduced modulo `2 ^ 64`, rendered in hex. -/
theorem create_hash_eq (f : FsFile) :
    create_hash f =
      toHex16 ((f.size + windowSum f 0 + windowSum f (f.size - HASH_BLK_SIZE)) % 2 ^ 64) := by
  have h1 : hashWindow f 0 (f.size % 2 ^ 64) = (f.size % 2 ^ 64 + windowSum f 0) % 2 ^ 64 :=
    hashWindow_eq f 0 _ (Nat.mod_lt _ (Nat.two_pow_pos 64))
  have h2 : hashWindow f (f.size - HASH_BLK_SIZE) ((f.size % 2 ^ 64 + windowSum f 0) % 2 ^ 64) =
      ((f.size % 2 ^ 64 + windowSum f 0) % 2 ^ 64 +
        windowSum f (f.size - HASH_BLK_SIZE)) % 2 ^ 64 :=
    hashWindow_eq f _ _ (Nat.mod_lt _ (Nat.two_pow_pos 64))
  have h3 : ((f.size % 2 ^ 64 + windowSum f 0) % 2 ^ 64 +
        windowSum f (f.size - HASH_BLK_SIZE)) % 2 ^ 64 =
      (f.size + windowSum f 0 + windowSum f (f.size - HASH_BLK_SIZE)) % 2 ^ 64 := by
    rw [Nat.mod_add_mod, Nat.add_assoc, Nat.mod_add_mod, ← Nat.add_assoc]
  unfold create_hash
  rw [h1, h2, h3]

/-- `toHex16` always renders exactly 16 characters. -/
theorem toHex16_length (n : Nat) : (toHex16 n).length = 16 := by
  simp [toHex16, String.length]

/-- Every character `toHex16` renders is a lowercase hex digit. -/
theorem toHex16_chars (n : Nat) : ∀ c ∈ (toHex16 n).data, isLowerHexDigit c = true := by
  intro c hc
  have hd : ∀ d, d < 16 → isLowerHexDigit (Nat.digitChar d) = true := by decide
  simp only [toHex16, String.data, List.mem_map, List.mem_range] at hc
  obtain ⟨i, -, rfl⟩ := hc
  exact hd _ (Nat.mod_lt _ (by norm_num))

/-! ## Claim theorems -/

/-- Claim C1: for every file strictly larger than 65536 bytes,
`hash_for_file` returns the hex rendering of the 64-bit value obtained by
seeding the accumulator with the file size and adding, modulo `2 ^ 64`, the
8192 little-endian (native order) words of the first 65536 bytes, then the
8192 words of the final 65536 bytes starting at offset `size - 65536`; the
rendering is exactly 16 lowercase hex digits zero-padded on the left; and
the result is a function of the file's size and bytes alone, so repeated
calls on an unmodified file yield the identical string. -/
theorem spec_c1 (f : FsFile) (h : HASH_BLK_SIZE < f.size) :
    hash_for_file f =
      .ok (toHex16 ((f.size + windowSum f 0 + windowSum f (f.size - HASH_BLK_SIZE)) % 2 ^ 64)) ∧
    (∀ s, hash_for_file f = .ok s →
      s.length = 16 ∧ ∀ c ∈ s.data, isLowerHexDigit c = true) ∧
    (∀ g : FsFile, g.size = f.size → (∀ i, g.byte i = f.byte i) →
      hash_for_file g = hash_for_file f) := by
  have hnot : ¬ f.size ≤ HASH_BLK_SIZE := by omega
  have hok : hash_for_file f = .ok (create_hash f) := by
    unfold hash_for_file
    rw [if_neg hnot]
  refine ⟨?_, ?_, ?_⟩
  · rw [hok, create_hash_eq]
  · intro s hs
    rw [hok] at hs
    injection hs with hs
    subst hs
    rw [create_hash_eq]
    exact ⟨toHex16_length _, toHex16_chars _⟩
  · intro g hsz hb
    have hg : g = f := by
      obtain ⟨gs, gb⟩ := g
      obtain ⟨fs, fb⟩ := f
      simp only at hsz hb
      subst hsz
      rw [funext hb]
    rw [hg]

/-- Witness for C1 at an all-zero file of 65537 bytes. -/
theorem spec_c1_witness :
    hash_for_file (zeroFile 65537) =
      .ok (toHex16 (((zeroFile 65537).size + windowSum (zeroFile 65537) 0 +
        windowSum (zeroFile 65537) ((zeroFile 65537).size - HASH_BLK_SIZE)) % 2 ^ 64)) ∧
    (∀ s, hash_for_file (zeroFile 65537) = .ok s →
      s.length = 16 ∧ ∀ c ∈ s.data, isLowerHexDigit c = true) ∧
    (∀ g : FsFile, g.size = (zeroFile 65537).size →
      (∀ i, g.byte i = (zeroFile 65537).byte i) →
      hash_for_file g = hash_for_file (zeroFile 65537)) :=
  spec_c1 (zeroFile 65537) (by decide)

/-- Claim C3: for every file of at most 65536 bytes, `hash_for_file` fails
with the `InputTooSmall` error (`bail!("file too small")`), and the result
depends on the file's size alone --- no byte of the contents is read. -/
theorem spec_c3 (f : FsFile) (h : f.size ≤ HASH_BLK_SIZE) :
    hash_for_file f = .error "file too small" ∧
    (∀ g : FsFile, g.size = f.size → hash_for_file g = hash_for_file f) := by
  constructor
  · unfold hash_for_file
    rw [if_pos h]
  · intro g hg
    unfold hash_for_file
    rw [hg, if_pos h, if_pos h]

/-- Witness for C3 at a 100-byte file. -/
theorem spec_c3_witness :
    hash_for_file (zeroFile 100) = .error "file too small" ∧
    (∀ g : FsFile, g.size = (zeroFile 100).size →
      hash_for_file g = hash_for_file (zeroFile 100)) :=
  spec_c3 (zeroFile 100) (by decide)

/-- Claim C9: for every file whose size lies strictly between 65536 and
131072 bytes, fingerprinting succeeds (there is no `InputTooSmall`
failure), even though the head window `[0, 65536)` and the tail window
`[size - 65536, size)` overlap (the tail window starts before offset
65536), so the overlap's bytes contribute to both window sums of the
returned value. -/
theorem spec_c9 (f : FsFile) (h1 : HASH_BLK_SIZE < f.size)
    (h2 : f.size < 2 * HASH_BLK_SIZE) :
    f.size - HASH_BLK_SIZE < HASH_BLK_SIZE ∧
    hash_for_file f ≠ .error "file too small" ∧
    hash_for_file f =
      .ok (toHex16 ((f.size + windowSum f 0 +
        windowSum f (f.size - HASH_BLK_SIZE)) % 2 ^ 64)) := by
  have hok : hash_for_file f = .ok (create_hash f) := by
    unfold hash_for_file
    rw [if_neg (by omega)]
  refine ⟨by omega, ?_, ?_⟩
  · rw [hok]
    intro hc
    exact Except.noConfusion hc
  · rw [hok, create_hash_eq]

/-- Witness for C9 at an all-zero file of 65544 bytes (overlapping
windows). -/
theorem spec_c9_witness :
    (zeroFile 65544).size - HASH_BLK_SIZE < HASH_BLK_SIZE ∧
    hash_for_file (zeroFile 65544) ≠ .error "file too small" ∧
    hash_for_file (zeroFile 65544) =
      .ok (toHex16 (((zeroFile 65544).size + windowSum (zeroFile 65544) 0 +
        windowSum (zeroFile 65544) ((zeroFile 65544).size - HASH_BLK_SIZE)) % 2 ^ 64)) :=
  spec_c9 (zeroFile 65544) (by decide) (by decide)

/-- Claim C7: `to_url_in_base` parses the href as-is when it already starts
with the base origin and otherwise prepends the base origin before parsing;
in particular the relative link `/subtitles/7` resolves to
`<base>/subtitles/7`, and an already-absolute link matching the base origin
is returned unchanged. -/
theorem spec_c7 (href : String) :
    (charsStartWith href.data BASE_URL.data = true →
      to_url_in_base href = parseUrl href) ∧
    (charsStartWith href.data BASE_URL.data = false →
      to_url_in_base href = parseUrl (BASE_URL ++ href)) ∧
    to_url_in_base "/subtitles/7" = .ok "https://www.opensubtitles.org/subtitles/7" ∧
    to_url_in_base "https://www.opensubtitles.org/subtitles/7" =
      .ok "https://www.opensubtitles.org/subtitles/7" := by
  refine ⟨?_, ?_, by decide, by decide⟩
  · intro hb
    unfold to_url_in_base
    rw [if_pos hb]
  · intro hb
    unfold to_url_in_base
    rw [if_neg (by rw [hb]; exact Bool.false_ne_true)]

/-- Witness for C7: both branches exercised at concrete hrefs. -/
theorem spec_c7_witness :
    to_url_in_base "https://www.opensubtitles.org/x" =
      parseUrl "https://www.opensubtitles.org/x" ∧
    to_url_in_base "/subtitles/7" = parseUrl (BASE_URL ++ "/subtitles/7") :=
  ⟨(spec_c7 "https://www.opensubtitles.org/x").1 (by decide),
   (spec_c7 "/subtitles/7").2.1 (by decide)⟩

/-- Claim C8: a one-candidate selection set short-circuits: the single
candidate is returned and the interactive collaborator is never invoked, so
the result is the same whatever collaborator is supplied. -/
theorem spec_c8 (T : Type) (x : T) (p : String)
    (c c' : String → List T → Except String T) :
    prompt_unless_single c p [x] = .ok x ∧
    prompt_unless_single c p [x] = prompt_unless_single c' p [x] :=
  ⟨rfl, rfl⟩

/-- Claim C6 is half wrong in the code (code bug): for a dotted name the
extension is indeed the substring after the final `.`, but a name with no
`.` does NOT fail with `NoExtension`: Rust's `split('.')` always yields at
least one chunk, so `next_back()` is always `Some` and the
`ok_or_else(|| eyre!("this file has no extension"))` branch is dead; the
whole undotted name is returned as the "extension". -/
theorem spec_c6 :
    extension_of "readme" = .ok "readme" ∧
    (∀ e, extension_of "readme" ≠ .error e) ∧
    extension_of "movie.en.srt" = .ok "srt" ∧
    extension_of "archive.tar.gz" = .ok "gz" := by
  have h0 : extension_of "readme" = .ok "readme" := by decide
  refine ⟨h0, ?_, by decide, by decide⟩
  intro e he
  rw [h0] at he
  exact Except.noConfusion he

/-- Claim C4: a row whose parse fails is dropped from the entry list and
contributes exactly one warning, and the surrounding rows parse exactly as
they would without it; whenever the results table is present,
`top_rated_subs`'s parse stage returns `Except.ok` (a malformed row never
produces an error). -/
theorem spec_c4 (pre post : List Row) (bad : Row) (e : String)
    (hbad : SubsEntry.from_table_row_element bad = .error e) :
    parsedEntries (pre ++ bad :: post) = parsedEntries (pre ++ post) ∧
    parseWarnings (pre ++ bad :: post) = parseWarnings pre ++ e :: parseWarnings post ∧
    (∀ rows : List Row,
      top_rated_entries { searchResults := some rows } =
        .ok (parsedEntries (rows.drop 1))) := by
  refine ⟨?_, ?_, fun _ => rfl⟩
  · unfold parsedEntries
    rw [List.filterMap_append, List.filterMap_append, List.filterMap_cons]
    simp only [hbad, Except.toOption]
  · unfold parseWarnings
    rw [List.filterMap_append, List.filterMap_cons]
    simp only [hbad]

/-- Witness for C4: a cell-less row amid good rows. -/
theorem spec_c4_witness :
    parsedEntries ([] ++ headerRow :: [sampleRow "A" "9.5"]) =
      parsedEntries ([] ++ [sampleRow "A" "9.5"]) ∧
    parseWarnings ([] ++ headerRow :: [sampleRow "A" "9.5"]) =
      parseWarnings [] ++ "fetching entry number [0]" :: parseWarnings [sampleRow "A" "9.5"] ∧
    (∀ rows : List Row,
      top_rated_entries { searchResults := some rows } =
        .ok (parsedEntries (rows.drop 1))) :=
  spec_c4 [] [sampleRow "A" "9.5"] headerRow "fetching entry number [0]" (by decide)

/-- Claim C10: when the results table is present but every data row fails
to parse, the parse stage still returns `Except.ok` with the empty list
(for every `topN`, including 0, the full `top_rated_subs` contract then
only permits the empty output), and the empty list is passed on to the
selector, which invokes its collaborator on it. -/
theorem spec_c10 (rows : List Row) (topN : Nat)
    (hfail : ∀ r ∈ rows.drop 1, (SubsEntry.from_table_row_element r).toOption = none) :
    top_rated_entries { searchResults := some rows } = .ok [] ∧
    (∀ out, TopRatedSubs { searchResults := some rows } topN out → out = []) ∧
    (∀ (p : String) (c : String → List SubsEntry → Except String SubsEntry),
      prompt_unless_single c p [] = c p []) := by
  have hnil : parsedEntries (rows.drop 1) = [] := by
    unfold parsedEntries
    exact List.filterMap_eq_nil_iff.2 hfail
  have hok : top_rated_entries { searchResults := some rows } = .ok [] := by
    show Except.ok (parsedEntries (rows.drop 1)) = Except.ok ([] : List SubsEntry)
    rw [hnil]
  refine ⟨hok, ?_, fun p c => rfl⟩
  intro out hrel
  obtain ⟨cs, s, hcs, hperm, -, hout⟩ := hrel
  rw [hok] at hcs
  injection hcs with hcs
  subst hcs
  rw [List.perm_nil.1 hperm.symm] at hout
  simpa using hout

/-- Witness for C10: a page whose only data row has no cells. -/
theorem spec_c10_witness :
    top_rated_entries { searchResults := some [headerRow, headerRow] } = .ok [] ∧
    (∀ out, TopRatedSubs { searchResults := some [headerRow, headerRow] } 0 out → out = []) ∧
    (∀ (p : String) (c : String → List SubsEntry → Except String SubsEntry),
      prompt_unless_single c p [] = c p []) :=
  spec_c10 [headerRow, headerRow] 0 (by decide)

/-- Claim C2 as stated is false: `top_rated_subs` uses
`sorted_unstable_by_key`, whose contract allows equal keys to be reordered,
so it is not a stable sort.  For the page with ratings `[9.5, 7.0, 9.5]`
and `topN = 2`, the output `[entryC, entryA]` --- the two 9.5-rated rows
with their original relative order swapped --- is a permitted result yet
differs from the `[entryA, entryC]` the claim requires. -/
theorem spec_c2_counterexample :
    TopRatedSubs examplePage 2 [entryC, entryA] ∧
    [entryC, entryA] ≠ [entryA, entryC] :=
  ⟨⟨[entryA, entryB, entryC], [entryC, entryA, entryB],
    by decide, by decide, by decide, rfl⟩, by decide⟩

/-- Claim C2 (amended): every permitted result of `top_rated_subs` is
sorted by rating descending (ascending in the key `-rating`) and truncated
to the top `topN` of the parsed candidates --- `min topN (number of
candidates)` entries, all drawn from the parsed candidates; the relative
order of equally-rated rows is unspecified (unstable sort).  In particular,
for the page with ratings `[9.5, 7.0, 9.5]` and `topN = 2`, the result is
the two 9.5-rated rows in one of their two orders, the 7.0 row dropped. -/
theorem spec_c2_amended (page : Page) (topN : Nat) (out : List SubsEntry)
    (h : TopRatedSubs page topN out) :
    ((out.map fun e => -e.rating).Sorted (· ≤ ·)) ∧
    (∀ cs, top_rated_entries page = .ok cs →
      out.length = min topN cs.length ∧ ∀ x ∈ out, x ∈ cs) ∧
    (page = examplePage → topN = 2 →
      out = [entryA, entryC] ∨ out = [entryC, entryA]) := by
  obtain ⟨cs, s, hcs, hperm, hsort, hout⟩ := h
  subst hout
  refine ⟨?_, ?_, ?_⟩
  · rw [List.map_take]
    exact List.Pairwise.sublist (List.take_sublist _ _) hsort
  · intro cs' hcs'
    rw [hcs] at hcs'
    injection hcs' with hcs'
    subst hcs'
    constructor
    · rw [List.length_take, hperm.length_eq]
    · intro x hx
      exact hperm.mem_iff.2 (List.mem_of_mem_take hx)
  · intro hpage htop
    subst hpage
    subst htop
    have hex : top_rated_entries examplePage = .ok [entryA, entryB, entryC] := by decide
    rw [hex] at hcs
    injection hcs with hcs
    subst hcs
    have hs : s ∈ [entryA, entryB, entryC].permutations' :=
      List.mem_permutations'.2 hperm.symm
    have key : ∀ t ∈ [entryA, entryB, entryC].permutations',
        ((t.map fun e => -e.rating).Sorted (· ≤ ·)) →
        (t.take 2 = [entryA, entryC] ∨ t.take 2 = [entryC, entryA]) := by decide
    exact key s hs hsort

/-- Witness for the amended C2 at the fixture page. -/
theorem spec_c2_amended_witness :
    (([entryA, entryC].map fun e => -e.rating).Sorted (· ≤ ·)) ∧
    (∀ cs, top_rated_entries examplePage = .ok cs →
      [entryA, entryC].length = min 2 cs.length ∧ ∀ x ∈ [entryA, entryC], x ∈ cs) ∧
    (examplePage = examplePage → 2 = 2 →
      [entryA, entryC] = [entryA, entryC] ∨ [entryA, entryC] = [entryC, entryA]) :=
  spec_c2_amended examplePage 2 [entryA, entryC]
    ⟨[entryA, entryB, entryC], [entryA, entryC, entryB],
     by decide, by decide, by decide, rfl⟩

/-- Claim C5 as stated is false: after the unstable sort by the boolean
`.srt` key, `main` applies `.rev()`, which reverses the whole listing ---
so even a stable underlying sort would leave each group in *reversed*
archive order, and the unstable contract permits any within-group order.
For the fixture archive, the listing `["movie.en.srt", "movie.srt",
"readme.txt"]` is a permitted result yet differs from the claimed
archive-order listing `["movie.srt", "movie.en.srt", "readme.txt"]`. -/
theorem spec_c5_counterexample :
    ListedMembers exampleMembers ["movie.en.srt", "movie.srt", "readme.txt"] ∧
    ["movie.en.srt", "movie.srt", "readme.txt"] ≠
      ["movie.srt", "movie.en.srt", "readme.txt"] :=
  ⟨⟨["readme.txt", "movie.srt", "movie.en.srt"], by decide, by decide, rfl⟩, by decide⟩

/-- Claim C5 (amended): every permitted listing excludes the names that
case-insensitively (after trimming) end in `.nfo`, is a permutation of the
remaining names, and places every name case-insensitively ending in `.srt`
before all others; the order within the two groups is unspecified.  In
particular, for members `["movie.srt", "movie.en.srt", "info.nfo",
"readme.txt"]`, `info.nfo` is excluded and the listing is the two `.srt`
names, in one of their two orders, followed by `readme.txt`. -/
theorem spec_c5_amended (names out : List String) (h : ListedMembers names out) :
    (∀ n ∈ out, charsEndWith (trimChars (lowerChars n.data)) ".nfo".data = false) ∧
    out.Perm (zip_member_names names) ∧
    ((out.map srtKey).Sorted (· ≥ ·)) ∧
    (names = exampleMembers →
      out = ["movie.srt", "movie.en.srt", "readme.txt"] ∨
      out = ["movie.en.srt", "movie.srt", "readme.txt"]) := by
  obtain ⟨s, hperm, hsort, hout⟩ := h
  subst hout
  refine ⟨?_, ?_, ?_, ?_⟩
  · intro n hn
    rw [List.mem_reverse] at hn
    have hn' : n ∈ zip_member_names names := hperm.mem_iff.2 hn
    unfold zip_member_names at hn'
    have hp := List.of_mem_filter hn'
    simpa using hp
  · exact s.reverse_perm.trans hperm.symm
  · rw [List.map_reverse]
    show List.Pairwise (· ≥ ·) (s.map srtKey).reverse
    exact List.pairwise_reverse.2 hsort
  · intro hmem
    subst hmem
    have hz : zip_member_names exampleMembers =
        ["movie.srt", "movie.en.srt", "readme.txt"] := by decide
    rw [hz] at hperm
    have hs : s ∈ (["movie.srt", "movie.en.srt", "readme.txt"]).permutations' :=
      List.mem_permutations'.2 hperm.symm
    have key : ∀ t ∈ (["movie.srt", "movie.en.srt", "readme.txt"]).permutations',
        ((t.map srtKey).Sorted (· ≤ ·)) →
        (t.reverse = ["movie.srt", "movie.en.srt", "readme.txt"] ∨
         t.reverse = ["movie.en.srt", "movie.srt", "readme.txt"]) := by decide
    exact key s hs hsort

/-- Witness for the amended C5 at the fixture archive. -/
theorem spec_c5_amended_witness :
    (∀ n ∈ ["movie.srt", "movie.en.srt", "readme.txt"],
      charsEndWith (trimChars (lowerChars n.data)) ".nfo".data = false) ∧
    (["movie.srt", "movie.en.srt", "readme.txt"]).Perm (zip_member_names exampleMembers) ∧
    (((["movie.srt", "movie.en.srt", "readme.txt"]).map srtKey).Sorted (· ≥ ·)) ∧
    (exampleMembers = exampleMembers →
      ["movie.srt", "movie.en.srt", "readme.txt"] =
        ["movie.srt", "movie.en.srt", "readme.txt"] ∨
      ["movie.srt", "movie.en.srt", "readme.txt"] =
        ["movie.en.srt", "movie.srt", "readme.txt"]) :=
  spec_c5_amended exampleMembers ["movie.srt", "movie.en.srt", "readme.txt"]
    ⟨["readme.txt", "movie.en.srt", "movie.srt"], by decide, by decide, rfl⟩

end OpensubtitlesCli
